import Mathlib

/-!
Verification development for the v2 timetable pipeline
(`versions/v2/timetable.py`).

The pipeline converts raw schedule items fetched from the upstream
scheduling system into a 5×11 weekly grid of lesson entries plus a flat
list of exception (non-lesson) entries, applying name normalization with
override precedence, group-code decoding, start-time clamping, duration
clamping and a sort-then-group grid assembly.

Embedding conventions:
* Python dicts of overrides are association lists (`List (String × String)`)
  with `dictGet` modelling `d[k]` / `k in d`.
* Python `None`-able fields are `Option`; the `defaultdict(lambda: None, obj)`
  access pattern makes every raw field optional.
* Python falsiness defaults (`x or y`) are modelled by explicit functions
  (`pyOrInt`, `pyOrList`, ...) that treat `None`, `0` and `[]` as falsy.
* Calendar dates are integer day ordinals: the external `utils.date`
  collaborator (Monday-before etc.) is abstracted into an integer `monday`
  parameter, and `(date_ - monday_before).days` becomes `obj.date - monday`.
* An uncaught Python exception (KeyError / ValueError) is `none` / `.fail`:
  it aborts the whole request, so the pipeline returns `Option`.
* Machine integers are `Int`/`Nat` (Python ints are unbounded, so no
  wrap-around modelling is needed).
-/

/-- Python `x.replace("_", " ").lower()` (the `canonicalize` helper).
Inputs are ASCII identifiers, so per-character ASCII lowering is faithful. -/
def canonicalize (x : String) : String :=
  String.mk (x.toList.map (fun c => Char.toLower (if c = '_' then ' ' else c)))

/-- Lowercase a string character-wise (Python `str.lower()` on ASCII data). -/
def strToLower (s : String) : String :=
  String.mk (s.toList.map Char.toLower)

/-- Python `str.isupper()` restricted to ASCII-letter content: at least one
uppercase character and no lowercase character. -/
def pyIsUpper (s : String) : Bool :=
  s.toList.any (fun c => c.isUpper) && s.toList.all (fun c => !(c.isLower))

/-- Python dict lookup `d[k]` returning `none` for a missing key
(`k in d` is `(dictGet d k).isSome`). -/
def dictGet {β : Type} : List (String × β) → String → Option β
  | [], _ => none
  | (k, v) :: rest, key => if key = k then some v else dictGet rest key

/-- Python `x or d` for an optional integer: `None` and `0` are falsy. -/
def pyOrInt (x : Option Int) (d : Int) : Int :=
  match x with
  | none => d
  | some n => if n = 0 then d else n

/-- Python `x or d` for an optional list: `None` and `[]` are falsy. -/
def pyOrList (x : Option (List String)) (d : List String) : List String :=
  match x with
  | none => d
  | some l => if l = [] then d else l

/-- `l[0]` for the (always non-empty) lists produced by `pyOrList`. -/
def listHead1 : List String → String
  | [] => ""
  | h :: _ => h

/-- Parse `"HH:MM"` into minutes since midnight, `none` on malformed input
(Python `time.fromisoformat` raises `ValueError` there). -/
def timeToMinutes (s : String) : Option Nat :=
  match s.toList with
  | [h1, h2, ':', m1, m2] =>
    if h1.isDigit && h2.isDigit && m1.isDigit && m2.isDigit then
      let hh := (h1.toNat - 48) * 10 + (h2.toNat - 48)
      let mm := (m1.toNat - 48) * 10 + (m2.toNat - 48)
      if hh < 24 && mm < 60 then some (hh * 60 + mm) else none
    else none
  | _ => none

/-! ## Group-code decoding (`prep_group`)

The source matches the regex `([1-4])([a-zA-Z]|DSD)[1-4]?kl[1-4]?-(\d+)`
with `re.match`, i.e. anchored at the start of the string only.  The
matcher below implements exactly that pattern with the regex engine's
backtracking order: the single-letter alternative is tried before the
literal `DSD`, and each optional `[1-4]?` is greedy. -/

/-- Is the character in the regex class `[1-4]`. -/
def isDigit14 (c : Char) : Bool := '1' ≤ c && c ≤ '4'

/-- Value of a digit string (Python `int` on a `\d+` capture). -/
def digitsToNat (ds : List Char) : Nat :=
  ds.foldl (fun n c => n * 10 + (c.toNat - 48)) 0

/-- Match `-(\d+)` and return the captured index. -/
def matchDashDigits : List Char → Option Nat
  | '-' :: rest =>
    let ds := rest.takeWhile Char.isDigit
    if ds.isEmpty then none else some (digitsToNat ds)
  | _ => none

/-- Greedy `[1-4]?` followed by continuation `k`: try consuming the digit
first, backtrack to not consuming it. -/
def optDigit14Then (k : List Char → Option Nat) (cs : List Char) : Option Nat :=
  match cs with
  | c :: r2 => if isDigit14 c then (k r2).orElse (fun _ => k cs) else k cs
  | [] => k cs

/-- Match `kl[1-4]?-(\d+)`. -/
def matchKlTail (cs : List Char) : Option Nat :=
  match cs with
  | 'k' :: 'l' :: rest => optDigit14Then matchDashDigits rest
  | _ => none

/-- Match `[1-4]?kl[1-4]?-(\d+)` (the part after the language token). -/
def matchAfterTok (cs : List Char) : Option Nat :=
  optDigit14Then matchKlTail cs

/-- `re.match(r"([1-4])([a-zA-Z]|DSD)[1-4]?kl[1-4]?-(\d+)", x)`: returns the
captures `(count, token, index)` of the start-anchored match, `none` when the
pattern does not match a prefix of the input.  Trailing characters after the
digits are ignored, exactly as with `re.match`. -/
def matchGroupPattern : List Char → Option (Nat × String × Nat)
  | c :: rest =>
    if isDigit14 c then
      let cnt := c.toNat - 48
      let singleLetter : Option (Nat × String × Nat) :=
        match rest with
        | t :: r2 =>
          if t.isAlpha then (matchAfterTok r2).map (fun idx => (cnt, String.mk [t], idx))
          else none
        | [] => none
      singleLetter.orElse (fun _ =>
        match rest with
        | 'D' :: 'S' :: 'D' :: r2 => (matchAfterTok r2).map (fun idx => (cnt, "DSD", idx))
        | _ => none)
    else none
  | [] => none

/-- The fixed single-letter language table of `prep_group`, keyed by the
lowercased token. -/
def langNames : List (String × String) :=
  [("a", "angielski"), ("n", "niemiecki"), ("f", "francuski"),
   ("h", "hiszpański"), ("r", "rosyjski"), ("w", "włoski")]

/-- `prep_group`: decode a structured group code.  `none` models the
propagated `KeyError` when a structurally matching code carries a language
token outside the fixed table (the dict subscript in the source). -/
def prep_group (ovr : List (String × String)) (x : String) : Option String :=
  if x = "" then some ""
  else
    match dictGet ovr x with
    | some v => some v
    | none =>
      match matchGroupPattern x.toList with
      | some (_, tok, idx) =>
        if strToLower tok = "dsd" then some ("DSD " ++ toString idx)
        else
          match dictGet langNames (strToLower tok) with
          | none => none
          | some nm =>
            some ("język " ++ nm ++ " " ++ (if pyIsUpper tok then "duży" else "mały")
                  ++ " " ++ toString idx)
      | none => some (canonicalize x)

/-! ## Name resolution (`prep_subject` and friends)

Subject/Teacher/Classroom records are the opaque lookup records of the
external schema collaborator; only the fields the source reads are kept.
A falsy (`None`) record is `none`. -/

/-- Opaque subject record (fields read by the source: `name`, `short`). -/
structure Subject where
  name : String
  short : String
deriving DecidableEq

/-- Opaque teacher record (field read by the source: `short`). -/
structure Teacher where
  short : String
deriving DecidableEq

/-- Opaque classroom record (field read by the source: `short`). -/
structure Classroom where
  short : String
deriving DecidableEq

/-- `prep_subject`: override by full name, else canonicalize. -/
def prep_subject (ovr : List (String × String)) (x : Option Subject) : String :=
  match x with
  | none => ""
  | some s =>
    match dictGet ovr s.name with
    | some v => v
    | none => canonicalize s.name

/-- `prep_subject_short`: override by short name, else canonicalize. -/
def prep_subject_short (ovr : List (String × String)) (x : Option Subject) : String :=
  match x with
  | none => ""
  | some s =>
    match dictGet ovr s.short with
    | some v => v
    | none => canonicalize s.short

/-- `prep_teacher`: name-expansion table keyed by the lowercased
abbreviation; on a miss the original abbreviation is returned unmodified
(the source logs and explicitly does not canonicalize). -/
def prep_teacher (ovr : List (String × String)) (x : Option Teacher) : String :=
  match x with
  | none => ""
  | some t =>
    match dictGet ovr (strToLower t.short) with
    | some v => v
    | none => t.short

/-- `prep_classroom`: override by short name, else the short name is
returned verbatim (the source has no `canonicalize` on this path). -/
def prep_classroom (ovr : List (String × String)) (x : Option Classroom) : String :=
  match x with
  | none => ""
  | some c =>
    match dictGet ovr c.short with
    | some v => v
    | none => c.short

/-! ## Adaptive cache TTL (`trule`) -/

/-- `trule`: TTL (seconds) for the raw-fetch cache; 6 hours for a date still
in the future of `now`, otherwise `1e18` seconds (effectively permanent).
Times are integer timestamps; `now < date` is Python's datetime order. -/
def trule (now date : Int) : Int :=
  if now < date then 3600 * 6 else 10 ^ 18

/-- Modelled from the spec: expiry state of a cached entry under the
`pickle_cache(timeout_rule)` collaborator (not under `src/`): an entry
stored at `storedAt` with time-to-live `ttl` is expired — eligible for
re-fetch — at any instant `now` with `storedAt + ttl ≤ now`. -/
def cacheExpired (storedAt now ttl : Int) : Prop := storedAt + ttl ≤ now

/-! ## Raw items and normalized entries -/

/-- One raw schedule item, as read through `defaultdict(lambda: None, obj)`:
every field is optional except the always-present date and start time.
`date` is the item's calendar date as an integer day ordinal; the schema
table lookups (`table.teachers[...]` etc., external collaborator) are
abstracted into the already-resolved optional records. -/
structure RawItem where
  date : Int
  starttime : String
  durationperiods : Option Int
  type_ : String
  subject : Option Subject
  teacher : Option Teacher
  classroom : Option Classroom
  groupnames : Option (List String)
  colors : Option (List String)
  removed : Option Bool
  name : Option String
deriving DecidableEq

/-- The optional raw back-reference stored on detail requests (`TTentryRaw`);
the period record is identified by its index. -/
structure TTentryRaw where
  subject : Option Subject
  period : Nat
  teacher : Option Teacher
  classroom : Option Classroom
deriving DecidableEq

/-- A normalized lesson entry (`TTentry`). -/
structure TTentry where
  subject : String
  subject_short : String
  teacher : String
  classroom : String
  color : String
  time_index : Nat
  duration : Int
  group_raw : String
  group : String
  date : Int
  day_index : Int
  removed : Bool
  raw : Option TTentryRaw
deriving DecidableEq

/-- A normalized exception entry (`TTabsent`). -/
structure TTabsent where
  date : Int
  day_index : Int
  duration : Int
  group_raw : String
  group : String
  name : Option String
  time_index : Nat
deriving DecidableEq

/-- The lookup context: override tables plus the period table.
Modelled from the spec for the parts not under `src/`: the schema's
`table.periods.starttime` is a finite map from the 11 canonical period
start-time strings to period indices 0–10 (the exact map is a parameter;
concrete instances fix it). -/
structure Ctx where
  ovrSubject : List (String × String)
  ovrSubjectShort : List (String × String)
  ovrClassroom : List (String × String)
  ovrGroup : List (String × String)
  ovrTeacher : List (String × String)
  periodStart : List (String × Nat)
deriving DecidableEq

/-- Outcome of processing one raw item inside the normalization loop. -/
inductive ItemResult
  | fail
  | drop
  | lesson (e : TTentry)
  | event (ev : TTabsent)
deriving DecidableEq

/-- The start-time clamping chain of the loop body: clamp below 07:10 and
above 16:30; an in-range start time that is not a known period start is the
logged `continue` (`none` here). -/
def clampStart (ctx : Ctx) (rawStart : String) (start : Nat) : Option String :=
  if start < 7 * 60 + 10 then some "07:10"
  else if start > 16 * 60 + 30 then some "16:30"
  else
    match dictGet ctx.periodStart rawStart with
    | none => none
    | some _ => some rawStart

/-- The `"card"` branch of the loop body.  Kept exactly as the source: the
lesson's `time_index` is looked up from the raw `obj["starttime"]`, not from
the clamped `starttime` whose period index is `periodIdx` (the latter is
only stored in the optional raw back-reference). -/
def processCard (ctx : Ctx) (monday : Int) (rawFlag : Bool) (obj : RawItem)
    (periodIdx : Nat) (group_raw : String) : ItemResult :=
  match dictGet ctx.periodStart obj.starttime with
  | none => .fail
  | some ti =>
    match prep_group ctx.ovrGroup group_raw with
    | none => .fail
    | some grp =>
      .lesson
        { subject := prep_subject ctx.ovrSubject obj.subject
          subject_short := prep_subject_short ctx.ovrSubjectShort obj.subject
          teacher := prep_teacher ctx.ovrTeacher obj.teacher
          classroom := prep_classroom ctx.ovrClassroom obj.classroom
          color := listHead1 (pyOrList obj.colors ["#d0ffd0"])
          time_index := ti
          duration := pyOrInt obj.durationperiods 1
          group_raw := group_raw
          group := grp
          date := obj.date
          day_index := obj.date - monday
          removed := obj.removed.getD false
          raw := if rawFlag then
                   some { subject := obj.subject, period := periodIdx,
                          teacher := obj.teacher, classroom := obj.classroom }
                 else none }

/-- The exception branch's duration: default 1 via falsiness, then clamped
so that `time_index + duration` cannot exceed 9. -/
def eventDuration (obj : RawItem) (periodIdx : Nat) : Int :=
  let duration := pyOrInt obj.durationperiods 1
  if duration + (periodIdx : Int) > 9 then 9 - (periodIdx : Int) else duration

/-- The non-lesson branch of the loop body. -/
def processEvent (ctx : Ctx) (monday : Int) (obj : RawItem)
    (periodIdx : Nat) (group_raw : String) : ItemResult :=
  match prep_group ctx.ovrGroup group_raw with
  | none => .fail
  | some grp =>
    .event
      { date := obj.date
        day_index := obj.date - monday
        duration := eventDuration obj periodIdx
        group_raw := group_raw
        group := grp
        name := obj.name
        time_index := periodIdx }

/-- One iteration of the normalization loop of `get_timetable_data`:
start-time parsing and clamping, the period lookups, and the branch on the
item type.  `.fail` is an uncaught exception (aborts the request), `.drop`
is the logged `continue` for an unusual in-range start time. -/
def processItem (ctx : Ctx) (monday : Int) (rawFlag : Bool) (obj : RawItem) : ItemResult :=
  match timeToMinutes obj.starttime with
  | none => .fail
  | some start =>
    match clampStart ctx obj.starttime start with
    | none => .drop
    | some starttime =>
      match dictGet ctx.periodStart starttime with
      | none => .fail
      | some periodIdx =>
        if obj.type_ = "card" then
          processCard ctx monday rawFlag obj periodIdx (listHead1 (pyOrList obj.groupnames [""]))
        else
          processEvent ctx monday obj periodIdx (listHead1 (pyOrList obj.groupnames [""]))

/-- The whole normalization loop: collects lesson entries and exception
entries in input order; any `.fail` aborts the request (`none`). -/
def processAll (ctx : Ctx) (monday : Int) (rawFlag : Bool) :
    List RawItem → Option (List TTentry × List TTabsent)
  | [] => some ([], [])
  | i :: rest =>
    match processItem ctx monday rawFlag i with
    | .fail => none
    | .drop => processAll ctx monday rawFlag rest
    | .lesson e => (processAll ctx monday rawFlag rest).map (fun p => (e :: p.1, p.2))
    | .event ev => (processAll ctx monday rawFlag rest).map (fun p => (p.1, ev :: p.2))

/-! ## Sorting, religion rewrite and grid assembly -/

/-- Stable insertion of an entry into a list sorted by `day_index`
(the new element goes before existing elements with an equal key,
matching the stability of Python's `list.sort`). -/
def insertDay (x : TTentry) : List TTentry → List TTentry
  | [] => [x]
  | y :: ys => if x.day_index ≤ y.day_index then x :: y :: ys else y :: insertDay x ys

/-- `data.sort(key = lambda x: x["day_index"])`: a stable sort by day index. -/
def sortByDay (l : List TTentry) : List TTentry := l.foldr insertDay []

/-- The religion rewrite applied to one entry. -/
def religionize1 (e : TTentry) : TTentry :=
  if e.subject = "religia" then { e with group := "religia 1" } else e

/-- The post-sort loop forcing `group` to `"religia 1"` on religion lessons. -/
def religionize (l : List TTentry) : List TTentry := l.map religionize1

/-- The week grid: rows are days, cells are lists of lesson entries. -/
abbrev Grid := List (List (List TTentry))

/-- `[[[]]*11 for _ in range(5)]` — the value-level content is a fresh 5×11
grid of empty cells (cells are only ever replaced, never mutated in place,
so the Python aliasing of the inner `[]` is unobservable). -/
def emptyGrid : Grid := List.replicate 5 (List.replicate 11 ([] : List TTentry))

/-- Python list indexing: a negative index within `-len..-1` wraps once,
anything else out of `0..len-1` raises `IndexError` (`none`). -/
def pyIdx (len : Nat) (i : Int) : Option Nat :=
  if 0 ≤ i ∧ i < (len : Int) then some i.toNat
  else if -(len : Int) ≤ i ∧ i < 0 then some (i + len).toNat
  else none

/-- `output[idx][x] = list(y)` with Python indexing semantics. -/
def setCell (g : Grid) (d : Int) (t : Nat) (cell : List TTentry) : Option Grid :=
  match pyIdx g.length d with
  | none => none
  | some dn =>
    match g[dn]? with
    | none => none
    | some row => if t < row.length then some (g.set dn (row.set t cell)) else none

/-- `itertools.groupby` by `time_index`: groups consecutive runs of equal
keys (a key recurring non-consecutively yields several groups). -/
def pyGroupBy : List TTentry → List (Nat × List TTentry)
  | [] => []
  | x :: xs =>
    match pyGroupBy xs with
    | [] => [(x.time_index, [x])]
    | (k, g) :: rest =>
      if x.time_index = k then (k, x :: g) :: rest
      else (x.time_index, [x]) :: (k, g) :: rest

/-- Keys of the `days` dict in insertion order (first occurrence). -/
def firstKeys (l : List TTentry) : List Int :=
  l.foldl (fun acc e => if e.day_index ∈ acc then acc else acc ++ [e.day_index]) []

/-- Fill one day's row: assign every consecutive `time_index` group of the
day's list into its cell; a later group with a recurring key overwrites. -/
def fillDay (d : Int) (day : List TTentry) (og : Option Grid) : Option Grid :=
  (pyGroupBy day).foldl (fun acc p => acc.bind (fun g => setCell g d p.1 p.2)) og

/-- The grid-assembly loops: partition the (sorted) data by day index,
then assign per-day groups into cells. -/
def buildGrid (data : List TTentry) : Option Grid :=
  (firstKeys data).foldl
    (fun acc k => fillDay k (data.filter (fun e => e.day_index == k)) acc)
    (some emptyGrid)

/-- The returned structure: `{"ttdata": output, "events": events}`. -/
structure TTOutput where
  ttdata : Grid
  events : List TTabsent
deriving DecidableEq

/-- `get_timetable_data` after the raw fetch: normalize the fetched items
for the week starting at day ordinal `monday` (the external
`utils.date.monday_before` of the requested date).  `none` models an
uncaught exception escaping the request. -/
def get_timetable_data (ctx : Ctx) (monday : Int) (rawFlag : Bool)
    (items : List RawItem) : Option TTOutput :=
  match processAll ctx monday rawFlag items with
  | none => none
  | some (data, events) =>
    match buildGrid (religionize (sortByDay data)) with
    | none => none
    | some g => some { ttdata := g, events := events }

/-! ## Concrete fixtures for counterexamples and witnesses -/

/-- Modelled from the spec: one concrete period table with the 11 canonical
start times (period 0 starts 07:10, period 10 starts 16:30; the middle
values are illustrative — the claims depend only on the first and last
start times and on the absence of the tested unlisted times). -/
def periods0 : List (String × Nat) :=
  [("07:10", 0), ("08:00", 1), ("08:55", 2), ("09:50", 3), ("10:45", 4),
   ("11:40", 5), ("12:35", 6), ("13:30", 7), ("14:25", 8), ("15:20", 9),
   ("16:30", 10)]

/-- A context with no overrides and the concrete period table. -/
def ctx0 : Ctx :=
  { ovrSubject := [], ovrSubjectShort := [], ovrClassroom := [],
    ovrGroup := [], ovrTeacher := [], periodStart := periods0 }

/-- A raw lesson item template: day ordinal 2 of the week, no optional data. -/
def mkLesson (st : String) (subj : String) : RawItem :=
  { date := 2, starttime := st, durationperiods := none, type_ := "card",
    subject := some { name := subj, short := subj }, teacher := none,
    classroom := none, groupnames := none, colors := none, removed := none,
    name := none }

/-- A raw non-lesson (event) item template on the same day. -/
def mkEvent (st : String) : RawItem :=
  { date := 2, starttime := st, durationperiods := none, type_ := "event",
    subject := none, teacher := none, classroom := none, groupnames := none,
    colors := none, removed := none, name := some "wydarzenie" }

/-- The lesson entry produced for a raw item, if any. -/
def lessonOf (ctx : Ctx) (monday : Int) (rawFlag : Bool) (i : RawItem) : Option TTentry :=
  match processItem ctx monday rawFlag i with
  | .lesson e => some e
  | _ => none

/-- The exception entry produced for a raw item, if any. -/
def eventOf (ctx : Ctx) (monday : Int) (rawFlag : Bool) (i : RawItem) : Option TTabsent :=
  match processItem ctx monday rawFlag i with
  | .event ev => some ev
  | _ => none

/-- Does processing this raw item raise (abort the request). -/
def failItem (ctx : Ctx) (monday : Int) (rawFlag : Bool) (i : RawItem) : Bool :=
  match processItem ctx monday rawFlag i with
  | .fail => true
  | _ => false

/-- A raw lesson item on day ordinal `d` of the week. -/
def mkLessonOn (d : Int) (st subj : String) : RawItem :=
  { mkLesson st subj with date := d }

/-- The exception entry the pipeline produces for `mkEvent "17:00"`: clamped
start bucket 10, clamped duration 9 − 10 = −1. -/
def evC4 : TTabsent :=
  { date := 2, day_index := 2, duration := -1, group_raw := "", group := "",
    name := some "wydarzenie", time_index := 10 }

/-- The lesson entry the pipeline produces for `mkLesson "08:00" "matematyka"`
with `monday = 0`. -/
def entryC2 : TTentry :=
  { subject := "matematyka", subject_short := "matematyka", teacher := "",
    classroom := "", color := "#d0ffd0", time_index := 1, duration := 1,
    group_raw := "", group := "", date := 2, day_index := 2, removed := false,
    raw := none }

/-- The full output for that single lesson: the 5×11 grid with the one cell
(2, 1) filled. -/
def outC2 : TTOutput :=
  { ttdata := emptyGrid.set 2 ((List.replicate 11 ([] : List TTentry)).set 1 [entryC2])
    events := [] }

/-- Three lessons, one on day 0 and two sharing cell (1, 1): reversing the
feed reverses the within-cell list of cell (1, 1). -/
def itemsC3 : List RawItem :=
  [mkLessonOn 0 "08:00" "aaa", mkLessonOn 1 "08:00" "bbb", mkLessonOn 1 "08:00" "ccc"]

/-- Two lessons on distinct days, for the order-independence witness. -/
def itemsC3w : List RawItem :=
  [mkLessonOn 0 "08:00" "aaa", mkLessonOn 1 "08:00" "bbb"]

/-- Well-formedness of a produced grid: 5 rows of 11 cells, and every entry
sits in the cell addressed by its own `(day_index, time_index)`. -/
def GridOK (g : Grid) : Prop :=
  g.length = 5 ∧ (∀ row ∈ g, row.length = 11) ∧
  ∀ (d t : Nat) (row : List (List TTentry)) (cell : List TTentry) (e : TTentry),
    g[d]? = some row → row[t]? = some cell → e ∈ cell →
    e.day_index = (d : Int) ∧ e.time_index = t

/-- The five in-week day keys, in ascending order. -/
def dayKeys : List Int := [0, 1, 2, 3, 4]

/-- Concatenation of the per-day sublists of `l` over the key list `ks`:
the canonical form of a stable sort by day when all keys lie in `ks`. -/
def blocksOf : List Int → List TTentry → List TTentry
  | [], _ => []
  | k :: ks, l => l.filter (fun e => e.day_index == k) ++ blocksOf ks l

/-! ## Infrastructure lemmas -/

theorem processAll_eq (ctx : Ctx) (monday : Int) (rawFlag : Bool) (items : List RawItem) :
    processAll ctx monday rawFlag items =
      if items.any (failItem ctx monday rawFlag) then none
      else some (items.filterMap (lessonOf ctx monday rawFlag),
                 items.filterMap (eventOf ctx monday rawFlag)) := by
  induction items with
  | nil => simp [processAll]
  | cons i rest ih =>
    simp only [processAll, List.any_cons, List.filterMap_cons, ih]
    cases h : processItem ctx monday rawFlag i <;>
      simp [failItem, lessonOf, eventOf, h] <;> split <;> simp

theorem prep_group_fallback (ovr : List (String × String)) (x : String)
    (hovr : dictGet ovr x = none) (hm : matchGroupPattern x.toList = none) :
    prep_group ovr x = some (canonicalize x) := by
  unfold prep_group
  by_cases hx : x = ""
  · subst hx
    rfl
  · rw [if_neg hx, hovr, hm]

/-! ## Claim theorems -/

/-- C5: group decoding of structured codes.  The lowercase token "a" yields
the small-group qualifier, the uppercase token the large-group qualifier,
"DSD" yields the DSD form, and an unstructured id falls back to
canonicalization. -/
theorem c5_group_decoding :
    prep_group [] "2a1kl-3" = some "język angielski mały 3" ∧
    prep_group [] "2A1kl-3" = some "język angielski duży 3" ∧
    prep_group [] "3DSDkl-1" = some "DSD 1" ∧
    prep_group [] "grupa_x" = some "grupa x" :=
  ⟨rfl, rfl, rfl, rfl⟩

/-- C7: a group code that structurally matches the pattern but whose
single-letter language token lies outside the fixed six-language table is a
hard lookup failure (`none`, the propagated `KeyError`), never a fallback
result. -/
theorem c7_unknown_token_hard_failure (ovr : List (String × String)) (x : String)
    (cnt : Nat) (tok : String) (idx : Nat)
    (hm : matchGroupPattern x.toList = some (cnt, tok, idx))
    (hovr : dictGet ovr x = none)
    (hdsd : strToLower tok ≠ "dsd")
    (hlang : dictGet langNames (strToLower tok) = none) :
    prep_group ovr x = none := by
  have hx : x ≠ "" := by
    intro h
    rw [h] at hm
    exact Option.noConfusion hm
  unfold prep_group
  rw [if_neg hx, hovr, hm]
  dsimp only
  rw [if_neg hdsd, hlang]

/-- Witness for C7 at the concrete code "2b1kl-3" ('b' is not one of the six
language letters). -/
theorem c7_witness : prep_group [] "2b1kl-3" = none :=
  c7_unknown_token_hard_failure [] "2b1kl-3" 2 "b" 3 rfl rfl (by decide) rfl

/-- C8 counterexample: the source uses `re.match`, which anchors only at the
start of the string.  "2a1kl-3x" does not match the pattern in its entirety,
yet it is decoded structurally (trailing "x" ignored) instead of being
canonicalized, refuting the claim as stated. -/
theorem c8_counterexample :
    prep_group [] "2a1kl-3x" = some "język angielski mały 3" ∧
    prep_group [] "2a1kl-3x" ≠ some (canonicalize "2a1kl-3x") := by
  exact ⟨rfl, by decide⟩

/-- C8 (amended): a group id for which the structured pattern fails to match
at the start of the string (prefix matching; trailing characters after a
successful prefix match are ignored) decodes to the generic canonicalization
of the whole string. -/
theorem c8_amended_prefix_anchored (ovr : List (String × String)) (x : String)
    (hovr : dictGet ovr x = none) (hm : matchGroupPattern x.toList = none) :
    prep_group ovr x = some (canonicalize x) :=
  prep_group_fallback ovr x hovr hm

/-- Witness for C8 (amended) at the concrete unstructured id "grupa_x". -/
theorem c8_witness : prep_group [] "grupa_x" = some "grupa x" :=
  (c8_amended_prefix_anchored [] "grupa_x" rfl rfl).trans (by decide)

/-- C6 counterexample: a classroom value with no override is returned
verbatim by `prep_classroom` — the source has no `canonicalize` call on that
path — refuting the claim that every no-override classroom value is
canonicalized. -/
theorem c6_counterexample :
    prep_classroom [] (some { short := "Chemia_Org" }) = "Chemia_Org" ∧
    canonicalize "Chemia_Org" = "chemia org" ∧
    prep_classroom [] (some { short := "Chemia_Org" }) ≠ canonicalize "Chemia_Org" :=
  ⟨rfl, rfl, by decide⟩

/-- C6 (amended): override values are returned verbatim for every category;
without an override, subject, subject-short and group values canonicalize
(lowercase, underscores to spaces), while a classroom value is returned as
the raw short name, unmodified. -/
theorem c6_amended_resolution (ovrS ovrSS ovrC ovrG : List (String × String))
    (sA sB sC sD : Subject) (cA cB : Classroom) (g g2 : String) (vA vC vE vG : String)
    (hA : dictGet ovrS sA.name = some vA)
    (hB : dictGet ovrS sB.name = none)
    (hC : dictGet ovrSS sC.short = some vC)
    (hD : dictGet ovrSS sD.short = none)
    (hE : dictGet ovrC cA.short = some vE)
    (hF : dictGet ovrC cB.short = none)
    (hG : dictGet ovrG g = none)
    (hH : matchGroupPattern g.toList = none)
    (hne : g2 ≠ "")
    (hI : dictGet ovrG g2 = some vG) :
    prep_subject ovrS (some sA) = vA ∧
    prep_subject ovrS (some sB) = canonicalize sB.name ∧
    prep_subject_short ovrSS (some sC) = vC ∧
    prep_subject_short ovrSS (some sD) = canonicalize sD.short ∧
    prep_classroom ovrC (some cA) = vE ∧
    prep_classroom ovrC (some cB) = cB.short ∧
    prep_group ovrG g2 = some vG ∧
    prep_group ovrG g = some (canonicalize g) := by
  have hgrp : prep_group ovrG g2 = some vG := by
    unfold prep_group
    rw [if_neg hne, hI]
  refine ⟨?_, ?_, ?_, ?_, ?_, ?_, hgrp, prep_group_fallback ovrG g hG hH⟩ <;>
    simp [prep_subject, prep_subject_short, prep_classroom, hA, hB, hC, hD, hE, hF]

/-- Witness for C6 (amended) at concrete inputs: an overridden subject, a
non-overridden subject, a non-overridden classroom, and a group id present
in the group override table (the override wins even over the structured
pattern that "2a1kl-3" would otherwise match). -/
theorem c6_witness :
    prep_subject [("fizyka", "physics")] (some { name := "fizyka", short := "fiz" }) = "physics" ∧
    prep_subject [("fizyka", "physics")] (some { name := "Chemia_Org", short := "ch" }) = "chemia org" ∧
    prep_classroom [] (some { short := "Sala_1" }) = "Sala_1" ∧
    prep_group [("2a1kl-3", "english small 3")] "2a1kl-3" = some "english small 3" := by
  have h := c6_amended_resolution [("fizyka", "physics")] [("fiz", "FIZ")] [("s0", "S0")]
    [("2a1kl-3", "english small 3")]
    { name := "fizyka", short := "fiz" } { name := "Chemia_Org", short := "ch" }
    { name := "x", short := "fiz" } { name := "x", short := "Chemia_Org" }
    { short := "s0" } { short := "Sala_1" } "grupa_x" "2a1kl-3" "physics" "FIZ" "S0"
    "english small 3"
    rfl rfl rfl rfl rfl rfl rfl rfl (by decide) rfl
  exact ⟨h.1, (h.2.1).trans (by decide), h.2.2.2.2.2.1, h.2.2.2.2.2.2.1⟩

/-- C9: the adaptive TTL rule: a date strictly in the future of now gets a
6-hour TTL; otherwise the TTL is `1e18` seconds, so under the cache's expiry
rule a future-date entry is eligible for re-fetch once 6 hours have elapsed
while a past-date entry is not eligible for any elapsed time below `1e18`
seconds (effectively permanent). -/
theorem c9_adaptive_ttl (now d storedAt t : Int) :
    (now < d → trule now d = 3600 * 6) ∧
    (d ≤ now → trule now d = 10 ^ 18) ∧
    (now < d → 3600 * 6 ≤ t → cacheExpired storedAt (storedAt + t) (trule now d)) ∧
    (d ≤ now → t < 10 ^ 18 → ¬ cacheExpired storedAt (storedAt + t) (trule now d)) := by
  unfold trule cacheExpired
  refine ⟨fun h => ?_, fun h => ?_, fun h ht => ?_, fun h ht => ?_⟩
  · rw [if_pos h]
  · rw [if_neg (not_lt.mpr h)]
  · rw [if_pos h]; omega
  · rw [if_neg (not_lt.mpr h)]; omega

/-- Witness for C9 at concrete instants: now 0 with future date 1, and now 1
with past date 0. -/
theorem c9_witness :
    trule 0 1 = 3600 * 6 ∧ trule 1 0 = 10 ^ 18 ∧
    cacheExpired 5 (5 + 21600) (trule 0 1) ∧
    ¬ cacheExpired 5 (5 + 999999) (trule 1 0) :=
  ⟨(c9_adaptive_ttl 0 1 5 21600).1 (by decide),
   (c9_adaptive_ttl 1 0 5 999999).2.1 (by decide),
   (c9_adaptive_ttl 0 1 5 21600).2.2.1 (by decide) (by decide),
   (c9_adaptive_ttl 1 0 5 999999).2.2.2 (by decide) (by decide)⟩

/-- C10: a `durationperiods` field present but equal to 0 is processed
exactly like an absent field — the default of 1 is applied through Python
falsiness (`x or 1`) in the lesson branch and the exception branch alike. -/
theorem c10_zero_duration_like_absent (ctx : Ctx) (monday : Int) (rawFlag : Bool)
    (i : RawItem) :
    processItem ctx monday rawFlag { i with durationperiods := some 0 } =
      processItem ctx monday rawFlag { i with durationperiods := none } ∧
    pyOrInt (some 0) 1 = 1 ∧ pyOrInt none 1 = 1 :=
  ⟨rfl, rfl, rfl⟩

/-- C1: the start-time clamping is only effective for non-lesson items — a
code bug.  At the concrete inputs: a lesson item with start time "06:45"
makes the whole request fail (`none`: the source looks up the raw
`obj["starttime"]` — absent from the period table — when computing the
lesson's `time_index`, a `KeyError`), instead of being bucketed at "07:10"
as the claim states; a non-lesson item with "06:45" is correctly bucketed
at the "07:10" period (index 0); unlisted in-range start times like "09:17"
are dropped for both kinds, giving an empty grid and no events; a lesson
with "17:00" likewise fails, while a non-lesson with "17:00" is bucketed at
the "16:30" period (index 10). -/
theorem c1_lesson_clamp_code_bug :
    get_timetable_data ctx0 0 false [mkLesson "06:45" "matematyka"] = none ∧
    (get_timetable_data ctx0 0 false [mkEvent "06:45"]).map
        (fun o => o.events.map (fun e => e.time_index)) = some [0] ∧
    get_timetable_data ctx0 0 false [mkLesson "09:17" "matematyka", mkEvent "09:17"] =
      some { ttdata := emptyGrid, events := [] } ∧
    get_timetable_data ctx0 0 false [mkLesson "17:00" "matematyka"] = none ∧
    (get_timetable_data ctx0 0 false [mkEvent "17:00"]).map
        (fun o => o.events.map (fun e => e.time_index)) = some [10] :=
  ⟨rfl, rfl, rfl, rfl, rfl⟩

theorem processCard_ne_event (ctx : Ctx) (monday : Int) (rawFlag : Bool)
    (obj : RawItem) (periodIdx : Nat) (group_raw : String) (ev : TTabsent) :
    processCard ctx monday rawFlag obj periodIdx group_raw ≠ .event ev := by
  unfold processCard
  split
  · simp
  · split <;> simp

theorem processEvent_ne_lesson (ctx : Ctx) (monday : Int) (obj : RawItem)
    (periodIdx : Nat) (group_raw : String) (e : TTentry) :
    processEvent ctx monday obj periodIdx group_raw ≠ .lesson e := by
  unfold processEvent
  split <;> simp

theorem processEvent_facts (ctx : Ctx) (monday : Int) (obj : RawItem)
    (periodIdx : Nat) (group_raw : String) (ev : TTabsent)
    (h : processEvent ctx monday obj periodIdx group_raw = .event ev) :
    ev.time_index = periodIdx ∧ ev.day_index = obj.date - monday ∧
    ev.duration = eventDuration obj periodIdx := by
  unfold processEvent at h
  split at h
  · exact absurd h (by simp)
  · injection h with h'
    subst h'
    exact ⟨rfl, rfl, rfl⟩

theorem processCard_facts (ctx : Ctx) (monday : Int) (rawFlag : Bool)
    (obj : RawItem) (periodIdx : Nat) (group_raw : String) (e : TTentry)
    (h : processCard ctx monday rawFlag obj periodIdx group_raw = .lesson e) :
    e.day_index = obj.date - monday := by
  unfold processCard at h
  split at h
  · exact absurd h (by simp)
  · split at h
    · exact absurd h (by simp)
    · injection h with h'
      subst h'
      rfl

theorem processItem_event_facts (ctx : Ctx) (monday : Int) (rawFlag : Bool)
    (i : RawItem) (ev : TTabsent)
    (h : processItem ctx monday rawFlag i = .event ev) :
    ev.day_index = i.date - monday ∧ ev.duration = eventDuration i ev.time_index := by
  unfold processItem at h
  split at h
  · exact absurd h (by simp)
  · split at h
    · exact absurd h (by simp)
    · split at h
      · exact absurd h (by simp)
      · split at h
        · exact absurd h (processCard_ne_event _ _ _ _ _ _ _)
        · obtain ⟨h1, h2, h3⟩ := processEvent_facts _ _ _ _ _ _ h
          exact ⟨h2, by rw [h3, h1]⟩

theorem processItem_lesson_day (ctx : Ctx) (monday : Int) (rawFlag : Bool)
    (i : RawItem) (e : TTentry)
    (h : processItem ctx monday rawFlag i = .lesson e) :
    e.day_index = i.date - monday := by
  unfold processItem at h
  split at h
  · exact absurd h (by simp)
  · split at h
    · exact absurd h (by simp)
    · split at h
      · exact absurd h (by simp)
      · split at h
        · exact processCard_facts _ _ _ _ _ _ _ h
        · exact absurd h (processEvent_ne_lesson _ _ _ _ _ _)

theorem eventDuration_clamp (obj : RawItem) (periodIdx : Nat) :
    (periodIdx : Int) + eventDuration obj periodIdx ≤ 9 ∧
    ((periodIdx : Int) + pyOrInt obj.durationperiods 1 > 9 →
      (periodIdx : Int) + eventDuration obj periodIdx = 9) := by
  unfold eventDuration
  dsimp only
  split_ifs with hc <;> omega

theorem eventOf_event (ctx : Ctx) (monday : Int) (rawFlag : Bool)
    (i : RawItem) (ev : TTabsent)
    (h : eventOf ctx monday rawFlag i = some ev) :
    processItem ctx monday rawFlag i = .event ev := by
  unfold eventOf at h
  revert h
  cases hpi : processItem ctx monday rawFlag i <;> intro h <;> simp_all

theorem lessonOf_lesson (ctx : Ctx) (monday : Int) (rawFlag : Bool)
    (i : RawItem) (e : TTentry)
    (h : lessonOf ctx monday rawFlag i = some e) :
    processItem ctx monday rawFlag i = .lesson e := by
  unfold lessonOf at h
  revert h
  cases hpi : processItem ctx monday rawFlag i <;> intro h <;> simp_all

theorem get_timetable_data_some (ctx : Ctx) (monday : Int) (rawFlag : Bool)
    (items : List RawItem) (out : TTOutput)
    (h : get_timetable_data ctx monday rawFlag items = some out) :
    ∃ data, processAll ctx monday rawFlag items = some (data, out.events) ∧
      buildGrid (religionize (sortByDay data)) = some out.ttdata := by
  unfold get_timetable_data at h
  split at h
  · exact Option.noConfusion h
  · rename_i data events hpa
    split at h
    · exact Option.noConfusion h
    · rename_i g hbg
      injection h with h'
      subst h'
      exact ⟨data, hpa, hbg⟩

/-- C4: for every produced exception entry, `time_index + duration ≤ 9`
holds; and on the single-item level, for any input duration (in particular
any duration ≥ 1), if the raw period index plus the defaulted duration
exceeds 9 the stored duration is reduced so that the sum is exactly 9. -/
theorem c4_exception_duration_clamp (ctx : Ctx) (monday : Int) (rawFlag : Bool) :
    (∀ items out, get_timetable_data ctx monday rawFlag items = some out →
      ∀ ev ∈ out.events, (ev.time_index : Int) + ev.duration ≤ 9) ∧
    (∀ i ev, processItem ctx monday rawFlag i = .event ev →
      1 ≤ pyOrInt i.durationperiods 1 →
      (ev.time_index : Int) + ev.duration ≤ 9 ∧
      ((ev.time_index : Int) + pyOrInt i.durationperiods 1 > 9 →
        (ev.time_index : Int) + ev.duration = 9)) := by
  have hitem : ∀ i ev, processItem ctx monday rawFlag i = .event ev →
      (ev.time_index : Int) + ev.duration ≤ 9 ∧
      ((ev.time_index : Int) + pyOrInt i.durationperiods 1 > 9 →
        (ev.time_index : Int) + ev.duration = 9) := by
    intro i ev h
    obtain ⟨hday, hdur⟩ := processItem_event_facts _ _ _ _ _ h
    rw [hdur]
    exact eventDuration_clamp i ev.time_index
  constructor
  · intro items out hout ev hev
    obtain ⟨data, hpa, _⟩ := get_timetable_data_some _ _ _ _ _ hout
    rw [processAll_eq] at hpa
    split at hpa
    · exact Option.noConfusion hpa
    · injection hpa with hpa'
      have h2 : items.filterMap (eventOf ctx monday rawFlag) = out.events :=
        congrArg Prod.snd hpa'
      rw [← h2] at hev
      obtain ⟨i, hi, hoe⟩ := List.mem_filterMap.mp hev
      exact (hitem i ev (eventOf_event _ _ _ _ _ hoe)).1
  · intro i ev h _
    exact hitem i ev h

/-- Witness for C4 at the concrete non-lesson item with start "17:00"
(bucket 10) and absent duration (defaults to 1): the stored duration is
clamped to −1 and `10 + (−1) = 9`. -/
theorem c4_witness :
    (evC4.time_index : Int) + evC4.duration ≤ 9 ∧
    ((evC4.time_index : Int) + pyOrInt (mkEvent "17:00").durationperiods 1 > 9 →
      (evC4.time_index : Int) + evC4.duration = 9) :=
  (c4_exception_duration_clamp ctx0 0 false).2 (mkEvent "17:00") evC4
    (by decide) (by decide)

theorem pyIdx_nonneg (len : Nat) (d : Int) (dn : Nat) (hd : 0 ≤ d)
    (h : pyIdx len d = some dn) : dn = d.toNat ∧ d < (len : Int) := by
  unfold pyIdx at h
  split_ifs at h with h1 h2
  · injection h with h'
    exact ⟨h'.symm, h1.2⟩
  · omega

theorem GridOK_empty : GridOK emptyGrid := by
  refine ⟨by simp [emptyGrid], fun row hr => ?_, fun d t row cell e hrow hcell he => ?_⟩
  · unfold emptyGrid at hr
    obtain ⟨-, rfl⟩ := List.mem_replicate.mp hr
    simp
  · unfold emptyGrid at hrow
    rw [List.getElem?_replicate] at hrow
    split_ifs at hrow
    injection hrow with h'
    subst h'
    rw [List.getElem?_replicate] at hcell
    split_ifs at hcell
    injection hcell with h''
    subst h''
    exact absurd he (List.not_mem_nil e)

theorem setCell_ok (g : Grid) (d : Int) (t : Nat) (cell : List TTentry) (g' : Grid)
    (hg : GridOK g) (hd : 0 ≤ d)
    (hcell : ∀ e ∈ cell, e.day_index = d ∧ e.time_index = t)
    (h : setCell g d t cell = some g') : GridOK g' := by
  obtain ⟨hlen, hrows, hidx⟩ := hg
  unfold setCell at h
  split at h
  · exact Option.noConfusion h
  · rename_i dn hpy
    split at h
    · exact Option.noConfusion h
    · rename_i row hrow
      split_ifs at h with ht
      · injection h with h'
        subst h'
        obtain ⟨hdn, hdlt⟩ := pyIdx_nonneg _ _ _ hd hpy
        have hdn' : (dn : Int) = d := by rw [hdn]; exact Int.toNat_of_nonneg hd
        refine ⟨by rw [List.length_set]; exact hlen, ?_, ?_⟩
        · intro row' hr'
          rcases List.mem_iff_getElem?.mp hr' with ⟨j, hj⟩
          rw [List.getElem?_set] at hj
          split_ifs at hj with hjeq hjlt
          · injection hj with hj'
            subst hj'
            rw [List.length_set]
            exact hrows row (List.mem_iff_getElem?.mpr ⟨dn, hrow⟩)
          · exact hrows row' (List.mem_iff_getElem?.mpr ⟨j, hj⟩)
        · intro d' t' row' cell' e hrow' hcell' he
          rw [List.getElem?_set] at hrow'
          split_ifs at hrow' with hjeq hjlt
          · injection hrow' with hj'
            subst hj'
            subst hjeq
            rw [List.getElem?_set] at hcell'
            split_ifs at hcell' with hteq
            · injection hcell' with hc'
              subst hc'
              obtain ⟨he1, he2⟩ := hcell e he
              exact ⟨by rw [he1, ← hdn'], by rw [he2, hteq]⟩
            · exact hidx dn t' row cell' e hrow hcell' he
          · exact hidx d' t' row' cell' e hrow' hcell' he

theorem pyGroupBy_sound (l : List TTentry) :
    ∀ p ∈ pyGroupBy l, p.2 ≠ [] ∧ ∀ e ∈ p.2, e ∈ l ∧ e.time_index = p.1 := by
  induction l with
  | nil =>
    intro p hp
    simp [pyGroupBy] at hp
  | cons x xs ih =>
    intro p hp
    cases hgb : pyGroupBy xs with
    | nil =>
      simp only [pyGroupBy, hgb] at hp
      rw [List.mem_singleton] at hp
      subst hp
      refine ⟨by simp, ?_⟩
      intro e he
      rw [List.mem_singleton] at he
      subst he
      exact ⟨List.mem_cons_self _ _, rfl⟩
    | cons q rest =>
      obtain ⟨k, gl⟩ := q
      simp only [pyGroupBy, hgb] at hp
      split_ifs at hp with hxk
      · rw [List.mem_cons] at hp
        rcases hp with rfl | hp
        · refine ⟨by simp, ?_⟩
          intro e he
          rw [List.mem_cons] at he
          rcases he with rfl | he
          · exact ⟨List.mem_cons_self _ _, hxk⟩
          · have hq := ih (k, gl) (by rw [hgb]; exact List.mem_cons_self _ _)
            obtain ⟨e1, e2⟩ := hq.2 e he
            exact ⟨List.mem_cons_of_mem _ e1, e2⟩
        · have hq := ih p (by rw [hgb]; exact List.mem_cons_of_mem _ hp)
          exact ⟨hq.1, fun e he => ⟨List.mem_cons_of_mem _ (hq.2 e he).1, (hq.2 e he).2⟩⟩
      · rw [List.mem_cons] at hp
        rcases hp with rfl | hp
        · refine ⟨by simp, ?_⟩
          intro e he
          rw [List.mem_singleton] at he
          subst he
          exact ⟨List.mem_cons_self _ _, rfl⟩
        · have hq := ih p (by rw [hgb]; exact hp)
          exact ⟨hq.1, fun e he => ⟨List.mem_cons_of_mem _ (hq.2 e he).1, (hq.2 e he).2⟩⟩

theorem foldl_setCell_ok (d : Int) (hd : 0 ≤ d)
    (groups : List (Nat × List TTentry)) :
    ∀ (og : Option Grid) (g' : Grid),
      (∀ p ∈ groups, ∀ e ∈ p.2, e.day_index = d ∧ e.time_index = p.1) →
      (∀ g, og = some g → GridOK g) →
      groups.foldl (fun acc p => acc.bind (fun g => setCell g d p.1 p.2)) og = some g' →
      GridOK g' := by
  induction groups with
  | nil =>
    intro og g' _ hog h
    simp only [List.foldl_nil] at h
    exact hog g' h
  | cons p groups ih =>
    intro og g' hgr hog h
    simp only [List.foldl_cons] at h
    refine ih _ g' (fun q hq => hgr q (List.mem_cons_of_mem _ hq)) ?_ h
    intro g hg
    rcases og with _ | g0
    · exact Option.noConfusion hg
    · rw [Option.some_bind] at hg
      exact setCell_ok g0 d p.1 p.2 g (hog g0 rfl) hd (hgr p (List.mem_cons_self _ _)) hg

theorem fillDay_ok (d : Int) (hd : 0 ≤ d) (day : List TTentry) (og : Option Grid) (g' : Grid)
    (hday : ∀ e ∈ day, e.day_index = d)
    (hog : ∀ g, og = some g → GridOK g)
    (h : fillDay d day og = some g') : GridOK g' := by
  unfold fillDay at h
  refine foldl_setCell_ok d hd (pyGroupBy day) og g' ?_ hog h
  intro p hp e he
  obtain ⟨-, hmem⟩ := pyGroupBy_sound day p hp
  obtain ⟨h1, h2⟩ := hmem e he
  exact ⟨hday e h1, h2⟩

theorem foldl_keys_mem (l : List TTentry) :
    ∀ (acc : List Int) (k : Int),
      k ∈ l.foldl (fun acc e => if e.day_index ∈ acc then acc else acc ++ [e.day_index]) acc →
      k ∈ acc ∨ ∃ e ∈ l, e.day_index = k := by
  induction l with
  | nil =>
    intro acc k h
    exact Or.inl (by simpa using h)
  | cons x l ih =>
    intro acc k h
    simp only [List.foldl_cons] at h
    rcases ih _ k h with hacc | ⟨e, he, hek⟩
    · by_cases hx : x.day_index ∈ acc
      · rw [if_pos hx] at hacc
        exact Or.inl hacc
      · rw [if_neg hx] at hacc
        rcases List.mem_append.mp hacc with h1 | h1
        · exact Or.inl h1
        · rw [List.mem_singleton] at h1
          exact Or.inr ⟨x, List.mem_cons_self _ _, h1.symm⟩
    · exact Or.inr ⟨e, List.mem_cons_of_mem _ he, hek⟩

theorem firstKeys_mem (l : List TTentry) (k : Int) (h : k ∈ firstKeys l) :
    ∃ e ∈ l, e.day_index = k := by
  rcases foldl_keys_mem l [] k h with h0 | h1
  · simp at h0
  · exact h1

theorem foldl_fillDay_ok (data : List TTentry) (hdata : ∀ e ∈ data, 0 ≤ e.day_index)
    (ks : List Int) :
    ∀ (og : Option Grid) (g' : Grid),
      (∀ k ∈ ks, ∃ e ∈ data, e.day_index = k) →
      (∀ g, og = some g → GridOK g) →
      ks.foldl (fun acc k => fillDay k (data.filter (fun e => e.day_index == k)) acc) og
        = some g' →
      GridOK g' := by
  induction ks with
  | nil =>
    intro og g' _ hog h
    simp only [List.foldl_nil] at h
    exact hog g' h
  | cons k ks ih =>
    intro og g' hks hog h
    simp only [List.foldl_cons] at h
    refine ih _ g' (fun q hq => hks q (List.mem_cons_of_mem _ hq)) ?_ h
    intro g hg
    obtain ⟨e0, he0, hk0⟩ := hks k (List.mem_cons_self _ _)
    have hd : 0 ≤ k := hk0 ▸ hdata e0 he0
    refine fillDay_ok k hd _ og g ?_ hog hg
    intro e he
    have hpe := (List.mem_filter.mp he).2
    simpa using hpe

theorem buildGrid_ok (data : List TTentry) (hdata : ∀ e ∈ data, 0 ≤ e.day_index)
    (g' : Grid) (h : buildGrid data = some g') : GridOK g' := by
  unfold buildGrid at h
  refine foldl_fillDay_ok data hdata (firstKeys data) (some emptyGrid) g'
    (fun k hk => firstKeys_mem data k hk) ?_ h
  intro g hg
  injection hg with h'
  subst h'
  exact GridOK_empty

theorem mem_insertDay (x a : TTentry) (l : List TTentry) (h : a ∈ insertDay x l) :
    a = x ∨ a ∈ l := by
  induction l with
  | nil =>
    simp only [insertDay, List.mem_singleton] at h
    exact Or.inl h
  | cons y ys ih =>
    simp only [insertDay] at h
    split_ifs at h with hle
    · rcases List.mem_cons.mp h with rfl | h2
      · exact Or.inl rfl
      · exact Or.inr h2
    · rcases List.mem_cons.mp h with rfl | h2
      · exact Or.inr (List.mem_cons_self _ _)
      · rcases ih h2 with h3 | h3
        · exact Or.inl h3
        · exact Or.inr (List.mem_cons_of_mem _ h3)

theorem mem_sortByDay (a : TTentry) (l : List TTentry) (h : a ∈ sortByDay l) : a ∈ l := by
  induction l with
  | nil =>
    simp [sortByDay] at h
  | cons x xs ih =>
    have hdef : sortByDay (x :: xs) = insertDay x (sortByDay xs) := rfl
    rw [hdef] at h
    rcases mem_insertDay _ _ _ h with rfl | h2
    · exact List.mem_cons_self _ _
    · exact List.mem_cons_of_mem _ (ih h2)

theorem religionize1_fields (e : TTentry) :
    (religionize1 e).day_index = e.day_index ∧ (religionize1 e).time_index = e.time_index := by
  unfold religionize1
  split_ifs <;> exact ⟨rfl, rfl⟩

theorem mem_religionize (a : TTentry) (l : List TTentry) (h : a ∈ religionize l) :
    ∃ e ∈ l, a = religionize1 e := by
  unfold religionize at h
  obtain ⟨e, he, heq⟩ := List.mem_map.mp h
  exact ⟨e, he, heq.symm⟩

theorem processAll_lessons_day (ctx : Ctx) (monday : Int) (rawFlag : Bool)
    (items : List RawItem) (data : List TTentry) (events : List TTabsent)
    (h : processAll ctx monday rawFlag items = some (data, events))
    (hw : ∀ i ∈ items, monday ≤ i.date) :
    ∀ e ∈ data, 0 ≤ e.day_index := by
  rw [processAll_eq] at h
  split at h
  · exact Option.noConfusion h
  · injection h with h'
    have hdata : items.filterMap (lessonOf ctx monday rawFlag) = data :=
      congrArg Prod.fst h'
    intro e he
    rw [← hdata] at he
    obtain ⟨i, hi, hle⟩ := List.mem_filterMap.mp he
    have hday := processItem_lesson_day _ _ _ _ _ (lessonOf_lesson _ _ _ _ _ hle)
    rw [hday]
    have := hw i hi
    omega

/-- C2: every produced grid has shape exactly 5 days by 11 periods, and
every lesson entry contained in a grid cell has exactly that cell's indices
as its own `(day_index, time_index)` (so it can appear in no other cell).
The item dates are assumed not to precede the queried week's Monday, which
the upstream week-window query guarantees; a later date only makes the
request fail, never misplaces an entry. -/
theorem c2_grid_shape_and_cell_indices (ctx : Ctx) (monday : Int) (rawFlag : Bool)
    (items : List RawItem) (out : TTOutput)
    (hw : ∀ i ∈ items, monday ≤ i.date)
    (h : get_timetable_data ctx monday rawFlag items = some out) :
    out.ttdata.length = 5 ∧ (∀ row ∈ out.ttdata, row.length = 11) ∧
    ∀ (d t : Nat) (row : List (List TTentry)) (cell : List TTentry) (e : TTentry),
      out.ttdata[d]? = some row → row[t]? = some cell → e ∈ cell →
      e.day_index = (d : Int) ∧ e.time_index = t := by
  obtain ⟨data, hpa, hbg⟩ := get_timetable_data_some _ _ _ _ _ h
  have hdata0 : ∀ e ∈ data, 0 ≤ e.day_index :=
    processAll_lessons_day _ _ _ _ _ _ hpa hw
  have hdata : ∀ e ∈ religionize (sortByDay data), 0 ≤ e.day_index := by
    intro e he
    obtain ⟨e0, he0, rfl⟩ := mem_religionize _ _ he
    rw [(religionize1_fields e0).1]
    exact hdata0 e0 (mem_sortByDay _ _ he0)
  exact buildGrid_ok _ hdata _ hbg

/-- Witness for C2 at a concrete single-lesson input: the grid is 5 rows and
the produced entry in cell (2, 1) indeed carries day index 2 and time
index 1. -/
theorem c2_witness :
    outC2.ttdata.length = 5 ∧ entryC2.day_index = (2 : Int) ∧ entryC2.time_index = 1 := by
  have h := c2_grid_shape_and_cell_indices ctx0 0 false [mkLesson "08:00" "matematyka"] outC2
    (by decide) (by decide)
  have h3 := h.2.2 2 1 ((List.replicate 11 ([] : List TTentry)).set 1 [entryC2])
    [entryC2] entryC2 (by decide) (by decide) (by decide)
  exact ⟨h.1, h3.1, h3.2⟩

theorem insertDay_all_le (x : TTentry) (z : List TTentry)
    (h : ∀ y ∈ z, x.day_index ≤ y.day_index) : insertDay x z = x :: z := by
  cases z with
  | nil => rfl
  | cons y ys =>
    simp only [insertDay]
    rw [if_pos (h y (List.mem_cons_self _ _))]

theorem insertDay_append_lt (x : TTentry) (a b : List TTentry)
    (h : ∀ y ∈ a, y.day_index < x.day_index) :
    insertDay x (a ++ b) = a ++ insertDay x b := by
  induction a with
  | nil => simp
  | cons y ys ih =>
    rw [List.cons_append]
    simp only [insertDay]
    rw [if_neg (not_le.mpr (h y (List.mem_cons_self _ _))),
        ih (fun z hz => h z (List.mem_cons_of_mem _ hz))]
    rfl

theorem blocksOf_nil (ks : List Int) : blocksOf ks [] = [] := by
  induction ks with
  | nil => rfl
  | cons k ks ih =>
    simp only [blocksOf, List.filter_nil, List.nil_append]
    exact ih

theorem mem_blocksOf (ks : List Int) (l : List TTentry) (e : TTentry)
    (h : e ∈ blocksOf ks l) : e.day_index ∈ ks ∧ e ∈ l := by
  induction ks with
  | nil => simp [blocksOf] at h
  | cons k ks ih =>
    simp only [blocksOf] at h
    rcases List.mem_append.mp h with h1 | h1
    · obtain ⟨hm, hp⟩ := List.mem_filter.mp h1
      have hk : e.day_index = k := by simpa using hp
      exact ⟨by rw [hk]; exact List.mem_cons_self _ _, hm⟩
    · obtain ⟨hmem, hl⟩ := ih h1
      exact ⟨List.mem_cons_of_mem _ hmem, hl⟩

theorem blocksOf_cons_not_mem (ks : List Int) (x : TTentry) (l : List TTentry)
    (hx : x.day_index ∉ ks) : blocksOf ks (x :: l) = blocksOf ks l := by
  induction ks with
  | nil => rfl
  | cons k ks ih =>
    have hk1 : x.day_index ≠ k := fun hh => hx (hh ▸ List.mem_cons_self _ _)
    have hk2 : x.day_index ∉ ks := fun hh => hx (List.mem_cons_of_mem _ hh)
    simp only [blocksOf, List.filter_cons]
    rw [if_neg (by simpa using hk1), ih hk2]

theorem insertDay_blocksOf (ks : List Int) (x : TTentry) (l : List TTentry)
    (hs : ks.Pairwise (· < ·)) (hx : x.day_index ∈ ks) :
    insertDay x (blocksOf ks l) = blocksOf ks (x :: l) := by
  induction ks with
  | nil => exact absurd hx (List.not_mem_nil _)
  | cons k ks ih =>
    obtain ⟨hk, hs'⟩ := List.pairwise_cons.mp hs
    rcases List.mem_cons.mp hx with hxk | hxk
    · have hnotin : x.day_index ∉ ks := by
        intro hh
        have hlt := hk _ hh
        omega
      have hall : ∀ y ∈ blocksOf (k :: ks) l, x.day_index ≤ y.day_index := by
        intro y hy
        simp only [blocksOf] at hy
        rcases List.mem_append.mp hy with hy1 | hy1
        · have hyk : y.day_index = k := by simpa using (List.mem_filter.mp hy1).2
          omega
        · have hyk := (mem_blocksOf _ _ _ hy1).1
          have hlt := hk _ hyk
          omega
      rw [insertDay_all_le x _ hall]
      simp only [blocksOf, List.filter_cons]
      rw [if_pos (by simpa using hxk), blocksOf_cons_not_mem ks x l hnotin]
      rfl
    · have hxk' : x.day_index ≠ k := by
        have hlt := hk _ hxk
        omega
      have hF : ∀ y ∈ l.filter (fun e => e.day_index == k), y.day_index < x.day_index := by
        intro y hy
        have hyk : y.day_index = k := by simpa using (List.mem_filter.mp hy).2
        have hlt := hk _ hxk
        omega
      simp only [blocksOf]
      rw [insertDay_append_lt x _ _ hF, ih hs' hxk, List.filter_cons,
          if_neg (by simpa using hxk')]

theorem sortByDay_eq_blocksOf (l : List TTentry)
    (hl : ∀ e ∈ l, e.day_index ∈ dayKeys) :
    sortByDay l = blocksOf dayKeys l := by
  induction l with
  | nil => rw [blocksOf_nil]; rfl
  | cons x xs ih =>
    have hdef : sortByDay (x :: xs) = insertDay x (sortByDay xs) := rfl
    rw [hdef, ih (fun e he => hl e (List.mem_cons_of_mem _ he)),
        insertDay_blocksOf dayKeys x xs (by decide) (hl x (List.mem_cons_self _ _))]

theorem blocksOf_congr (ks : List Int) (l m : List TTentry)
    (h : ∀ k ∈ ks,
      l.filter (fun e => e.day_index == k) = m.filter (fun e => e.day_index == k)) :
    blocksOf ks l = blocksOf ks m := by
  induction ks with
  | nil => rfl
  | cons k ks ih =>
    simp only [blocksOf]
    rw [h k (List.mem_cons_self _ _), ih (fun q hq => h q (List.mem_cons_of_mem _ hq))]

theorem lessonOf_day (ctx : Ctx) (monday : Int) (rawFlag : Bool) (i : RawItem) (e : TTentry)
    (h : lessonOf ctx monday rawFlag i = some e) : e.day_index = i.date - monday :=
  processItem_lesson_day _ _ _ _ _ (lessonOf_lesson _ _ _ _ _ h)

theorem filter_filterMap_day (ctx : Ctx) (monday : Int) (rawFlag : Bool)
    (l : List RawItem) (k : Int) :
    (l.filterMap (lessonOf ctx monday rawFlag)).filter (fun e => e.day_index == k) =
      (l.filter (fun i => i.date - monday == k)).filterMap (lessonOf ctx monday rawFlag) := by
  induction l with
  | nil => rfl
  | cons i l ih =>
    cases hle : lessonOf ctx monday rawFlag i with
    | none =>
      simp only [List.filterMap_cons, List.filter_cons, hle]
      split_ifs with hk
      · simp only [List.filterMap_cons, hle]
        exact ih
      · exact ih
    | some e =>
      have hday := lessonOf_day _ _ _ _ _ hle
      by_cases hk : i.date - monday = k
      · have he : e.day_index = k := by rw [hday, hk]
        simp only [List.filterMap_cons, List.filter_cons, hle,
          if_pos (show (e.day_index == k) = true by simpa using he),
          if_pos (show (i.date - monday == k) = true by simpa using hk),
          List.filterMap_cons]
        rw [ih]
      · have he : e.day_index ≠ k := by rw [hday]; exact hk
        simp only [List.filterMap_cons, List.filter_cons, hle,
          if_neg (show ¬(e.day_index == k) = true by simpa using he),
          if_neg (show ¬(i.date - monday == k) = true by simpa using hk)]
        exact ih

theorem any_eq_of_mem_equiv {α : Type} (p : α → Bool) (l1 l2 : List α)
    (h12 : ∀ a ∈ l1, a ∈ l2) (h21 : ∀ a ∈ l2, a ∈ l1) : l1.any p = l2.any p := by
  cases hA : l1.any p with
  | true =>
    obtain ⟨a, ha, hp⟩ := List.any_eq_true.mp hA
    exact (List.any_eq_true.mpr ⟨a, h12 a ha, hp⟩).symm
  | false =>
    cases hB : l2.any p with
    | false => rfl
    | true =>
      obtain ⟨a, ha, hp⟩ := List.any_eq_true.mp hB
      have hC := List.any_eq_true.mpr ⟨a, h21 a ha, hp⟩
      rw [hA] at hC
      exact Bool.noConfusion hC

/-- C3 counterexample: the sort is by day index only and stable, so the raw
feed's within-day order survives into the cell lists.  Feeding the three
items in reverse day order (the full reversal) swaps the two entries that
share cell (1, 1), so the grids differ — the claim's "identical, including
within-cell entry lists" fails. -/
theorem c3_counterexample :
    get_timetable_data ctx0 0 false itemsC3 ≠
      get_timetable_data ctx0 0 false itemsC3.reverse := by
  decide

/-- C3 (amended): normalization is order-independent across days but not
within a day: two raw feeds whose per-day subsequences coincide — e.g. the
days presented in reverse order with each day's items kept in order —
produce identical grids; reversing the entire feed may reverse within-cell
entry lists.  (Items are assumed to carry dates inside the queried
Monday–Friday window.) -/
theorem c3_amended_per_day_order (ctx : Ctx) (monday : Int) (rawFlag : Bool)
    (l1 l2 : List RawItem)
    (h1 : ∀ i ∈ l1, 0 ≤ i.date - monday ∧ i.date - monday < 5)
    (h2 : ∀ i ∈ l2, 0 ≤ i.date - monday ∧ i.date - monday < 5)
    (hf : ∀ d : Nat, d < 5 →
      l1.filter (fun i => i.date - monday == (d : Int)) =
        l2.filter (fun i => i.date - monday == (d : Int))) :
    (get_timetable_data ctx monday rawFlag l1).map TTOutput.ttdata =
      (get_timetable_data ctx monday rawFlag l2).map TTOutput.ttdata := by
  have hfInt : ∀ k ∈ dayKeys,
      l1.filter (fun i => i.date - monday == k) =
        l2.filter (fun i => i.date - monday == k) := by
    intro k hk
    have hex : ∃ d : Nat, d < 5 ∧ (d : Int) = k := by
      simp only [dayKeys, List.mem_cons, List.not_mem_nil, or_false] at hk
      rcases hk with rfl | rfl | rfl | rfl | rfl
      · exact ⟨0, by norm_num⟩
      · exact ⟨1, by norm_num⟩
      · exact ⟨2, by norm_num⟩
      · exact ⟨3, by norm_num⟩
      · exact ⟨4, by norm_num⟩
    obtain ⟨d, hd5, hdk⟩ := hex
    rw [← hdk]
    exact hf d hd5
  have h12 : ∀ i ∈ l1, i ∈ l2 := by
    intro i hi
    obtain ⟨ha, hb⟩ := h1 i hi
    have hk : (i.date - monday) ∈ dayKeys := by
      simp only [dayKeys, List.mem_cons, List.not_mem_nil, or_false]
      omega
    have hmem : i ∈ l1.filter (fun j => j.date - monday == (i.date - monday)) :=
      List.mem_filter.mpr ⟨hi, by simp⟩
    rw [hfInt _ hk] at hmem
    exact (List.mem_filter.mp hmem).1
  have h21 : ∀ i ∈ l2, i ∈ l1 := by
    intro i hi
    obtain ⟨ha, hb⟩ := h2 i hi
    have hk : (i.date - monday) ∈ dayKeys := by
      simp only [dayKeys, List.mem_cons, List.not_mem_nil, or_false]
      omega
    have hmem : i ∈ l2.filter (fun j => j.date - monday == (i.date - monday)) :=
      List.mem_filter.mpr ⟨hi, by simp⟩
    rw [← hfInt _ hk] at hmem
    exact (List.mem_filter.mp hmem).1
  have hsorted :
      sortByDay (l1.filterMap (lessonOf ctx monday rawFlag)) =
        sortByDay (l2.filterMap (lessonOf ctx monday rawFlag)) := by
    have hbound1 : ∀ e ∈ l1.filterMap (lessonOf ctx monday rawFlag),
        e.day_index ∈ dayKeys := by
      intro e he
      obtain ⟨i, hi, hle⟩ := List.mem_filterMap.mp he
      rw [lessonOf_day _ _ _ _ _ hle]
      obtain ⟨ha, hb⟩ := h1 i hi
      simp only [dayKeys, List.mem_cons, List.not_mem_nil, or_false]
      omega
    have hbound2 : ∀ e ∈ l2.filterMap (lessonOf ctx monday rawFlag),
        e.day_index ∈ dayKeys := by
      intro e he
      obtain ⟨i, hi, hle⟩ := List.mem_filterMap.mp he
      rw [lessonOf_day _ _ _ _ _ hle]
      obtain ⟨ha, hb⟩ := h2 i hi
      simp only [dayKeys, List.mem_cons, List.not_mem_nil, or_false]
      omega
    rw [sortByDay_eq_blocksOf _ hbound1, sortByDay_eq_blocksOf _ hbound2]
    apply blocksOf_congr
    intro k hk
    rw [filter_filterMap_day, filter_filterMap_day, hfInt k hk]
  unfold get_timetable_data
  rw [processAll_eq ctx monday rawFlag l1, processAll_eq ctx monday rawFlag l2,
      any_eq_of_mem_equiv (failItem ctx monday rawFlag) l1 l2 h12 h21]
  split_ifs with hfail
  · rfl
  · dsimp only
    rw [hsorted]
    cases hbg : buildGrid (religionize (sortByDay
        (l2.filterMap (lessonOf ctx monday rawFlag)))) <;> rfl

/-- Witness for C3 (amended) at a concrete two-item feed: the same items in
reverse day order (within-day order trivially preserved) yield an identical
grid. -/
theorem c3_witness :
    (get_timetable_data ctx0 0 false itemsC3w).map TTOutput.ttdata =
      (get_timetable_data ctx0 0 false itemsC3w.reverse).map TTOutput.ttdata :=
  c3_amended_per_day_order ctx0 0 false itemsC3w itemsC3w.reverse
    (by decide) (by decide) (by decide)
